import Mathlib

/-!
Verification of the TM4C I2C master-mode transaction engine
(`src/tm4c-hal/src/i2c.rs`, macros `i2c_busy_wait!` and `i2c_hal!`).

The peripheral registers are modelled as an event trace: every register
access the code performs is recorded as one `Event`.  The status register
reads that end each busy-wait poll are supplied by an environment list
`List BusStatus` (each entry is the snapshot observed once `busy` clears);
incoming data bytes are supplied by a `List Nat`.  The functions below are
direct translations of the Rust source.
-/

set_option autoImplicit false

/-- Snapshot of the `mcs` status register, one field per status bit read by
the source (`busy` is implicit: each snapshot is the first busy-clear read). -/
structure BusStatus where
  busbsy : Bool
  error : Bool
  arblst : Bool
  adrack : Bool
  datack : Bool
  clkto : Bool
deriving DecidableEq

/-- `embedded_hal::i2c::NoAcknowledgeSource` as used by the source. -/
inductive NoAcknowledgeSource : Type
  | address
  | data
deriving DecidableEq

/-- The `embedded_hal::i2c::ErrorKind` values the source returns. -/
inductive ErrorKind : Type
  | other
  | arbitrationLoss
  | noAcknowledge (src : NoAcknowledgeSource)
deriving DecidableEq

/-- One register access performed by the engine. -/
inductive Event : Type
  | writeMSA (sa : Nat) (rs : Bool)
  | writeMDR (d : Nat)
  | writeMCS (start run stop ack : Bool)
  | writeMCLKOCNT (v : Nat)
  | readMCS
  | readMDR (d : Nat)
deriving DecidableEq

/-- The error classification performed after each busy-wait poll in
`i2c_busy_wait!` (src/tm4c-hal/src/i2c.rs lines 45-58 and 70-87):
`clkto`, then (inside the `error` branch) `arblst`, then `adrack`,
otherwise data NACK — the `datack` test is commented out in the source,
the final branch is an unconditional `else`. -/
def classify (s : BusStatus) : Option ErrorKind :=
  if s.clkto then some ErrorKind.other
  else if s.error then
    if s.arblst then some ErrorKind.arbitrationLoss
    else if s.adrack then some (ErrorKind.noAcknowledge NoAcknowledgeSource.address)
    else some (ErrorKind.noAcknowledge NoAcknowledgeSource.data)
  else none

/-- The command-register write `i2c.mcs.write(|w| w.stop().set_bit())`
that `i2c_busy_wait!` performs in the error branch when `arblst` is clear,
before reporting an address or data NACK. -/
def classifyStopEvents (s : BusStatus) : List Event :=
  if s.clkto then []
  else if s.error then
    if s.arblst then [] else [Event.writeMCS false false true false]
  else []

/-- Result of one busy-wait: completed clean, aborted with an error, or the
status environment ran out while the poll loop was still spinning. -/
inductive WaitRes : Type
  | ok
  | err (e : ErrorKind)
  | hang
deriving DecidableEq

/-- Timeout budget written to `mclkocnt`: `(1_000 >> 4) as u8`. -/
def mclkocntVal : Nat := (1000 >>> 4) % 256

/-- `i2c_busy_wait!(i2c)` (no extra field): program the watchdog, poll until
`busy` clears (consuming one status snapshot), classify. -/
def busyWaitPlain : List BusStatus → List Event × List BusStatus × WaitRes
  | [] => ([Event.writeMCLKOCNT mclkocntVal, Event.readMCS], [], WaitRes.hang)
  | s :: rest =>
      ([Event.writeMCLKOCNT mclkocntVal, Event.readMCS] ++ classifyStopEvents s, rest,
        match classify s with
        | some e => WaitRes.err e
        | none => WaitRes.ok)

/-- The secondary loop of `i2c_busy_wait!(i2c, busbsy, bit_is_clear)`
(lines 60-88): keep polling busy-clear snapshots, classifying each, until
`busbsy` is clear. -/
def busbsyLoop : List BusStatus → List Event × List BusStatus × WaitRes
  | [] => ([Event.readMCS], [], WaitRes.hang)
  | s :: rest =>
      match classify s with
      | some e => (Event.readMCS :: classifyStopEvents s, rest, WaitRes.err e)
      | none =>
          if s.busbsy then
            let r := busbsyLoop rest
            (Event.readMCS :: r.1, r.2.1, r.2.2)
          else ([Event.readMCS], rest, WaitRes.ok)

/-- `i2c_busy_wait!(i2c, busbsy, bit_is_clear)`: the plain wait followed, if
`busbsy` is still set on the first snapshot, by the secondary loop. -/
def busyWaitBusbsy : List BusStatus → List Event × List BusStatus × WaitRes
  | [] => ([Event.writeMCLKOCNT mclkocntVal, Event.readMCS], [], WaitRes.hang)
  | s :: rest =>
      match classify s with
      | some e =>
          ([Event.writeMCLKOCNT mclkocntVal, Event.readMCS] ++ classifyStopEvents s, rest,
            WaitRes.err e)
      | none =>
          if s.busbsy then
            let r := busbsyLoop rest
            ([Event.writeMCLKOCNT mclkocntVal, Event.readMCS] ++ r.1, r.2.1, r.2.2)
          else ([Event.writeMCLKOCNT mclkocntVal, Event.readMCS], rest, WaitRes.ok)

/-- `embedded_hal::i2c::Operation`: a write buffer (its bytes) or a read
buffer (its length; received bytes come from the environment). -/
inductive Operation : Type
  | write (bytes : List Nat)
  | read (n : Nat)
deriving DecidableEq

/-- Buffer length of an operation. -/
def Operation.len : Operation → Nat
  | Operation.write bytes => bytes.length
  | Operation.read n => n

/-- Direction of an operation; `core::mem::discriminant` comparison in the
source is equality of this bit. -/
def Operation.isRead : Operation → Bool
  | Operation.write _ => false
  | Operation.read _ => true

/-- Remove the first `k` bytes of an operation (used to state what remains
to be processed from the middle of an operation). -/
def Operation.dropB : Operation → Nat → Operation
  | Operation.write bytes, k => Operation.write (bytes.drop k)
  | Operation.read n, k => Operation.read (n - k)

/-- Outcome of a `transaction` run. `stuck` models a Rust index panic or
fuel exhaustion; it is unreachable for validated inputs. -/
inductive TOutcome : Type
  | ok
  | err (e : ErrorKind)
  | hang
  | stuck
deriving DecidableEq

/-- Prefix a trace onto a partial run. -/
def emit (evs : List Event) (r : List Event × TOutcome) : List Event × TOutcome :=
  (evs ++ r.1, r.2)

/-- The `?` operator applied to a busy-wait: on a clean wait continue with
the remaining status environment, otherwise return the wait's outcome. -/
def andThenW (w : List Event × List BusStatus × WaitRes)
    (k : List BusStatus → List Event × TOutcome) : List Event × TOutcome :=
  match w.2.2 with
  | WaitRes.ok => emit w.1 (k w.2.1)
  | WaitRes.err e => (w.1, TOutcome.err e)
  | WaitRes.hang => (w.1, TOutcome.hang)

/-- The `loop`/final-operation part of `transaction`
(src/tm4c-hal/src/i2c.rs lines 241-353), as a fuel-indexed recursion over
the mutable state `(start, op_i, byte_i)`.  Each iteration mirrors one pass
of the Rust loop: break to the final-operation handler on the last byte of
the last operation, otherwise issue the command for the current byte,
busy-wait, and advance. -/
def transLoop (addr : Nat) (ops : List Operation) :
    Nat → Bool → Nat → Nat → List BusStatus → List Nat → List Event × TOutcome
  | 0, _, _, _, _, _ => ([], TOutcome.stuck)
  | fuel + 1, start, op_i, byte_i, sts, rdata =>
      match ops[op_i]? with
      | none => ([], TOutcome.stuck)
      | some op =>
          if op_i = ops.length - 1 ∧ byte_i = op.len - 1 then
            -- final byte of the final operation (lines 317-353)
            match op with
            | Operation.write bytes =>
                emit ((if start then [Event.writeMSA addr false] else []) ++
                    [Event.writeMDR (bytes.getD byte_i 0),
                      Event.writeMCS start true true false]) <|
                  andThenW (busyWaitBusbsy sts) fun _ => ([], TOutcome.ok)
            | Operation.read _ =>
                emit ((if start then [Event.writeMSA addr true] else []) ++
                    [Event.writeMCS start true true false]) <|
                  andThenW (busyWaitPlain sts) fun sts1 =>
                    emit [Event.readMDR (rdata.headD 0)] <|
                      andThenW (busyWaitBusbsy sts1) fun _ => ([], TOutcome.ok)
          else
            let op_change : Bool :=
              if op_i = ops.length - 1 then false
              else op.isRead != (ops.getD (op_i + 1) (Operation.write [])).isRead
            match op with
            | Operation.write bytes =>
                emit ((if start then [Event.writeMSA addr false] else []) ++
                    [Event.writeMDR (bytes.getD byte_i 0),
                      Event.writeMCS start true false false]) <|
                  andThenW (busyWaitPlain sts) fun sts1 =>
                    if byte_i + 1 = op.len then
                      transLoop addr ops fuel op_change (op_i + 1) 0 sts1 rdata
                    else
                      transLoop addr ops fuel false op_i (byte_i + 1) sts1 rdata
            | Operation.read n =>
                emit ((if start then [Event.writeMSA addr true] else []) ++
                    [Event.writeMCS start true false (!(op_change && byte_i == n - 1))]) <|
                  andThenW (busyWaitPlain sts) fun sts1 =>
                    emit [Event.readMDR (rdata.headD 0)] <|
                      if byte_i + 1 = n then
                        transLoop addr ops fuel op_change (op_i + 1) 0 sts1 rdata.tail
                      else
                        transLoop addr ops fuel false op_i (byte_i + 1) sts1 rdata.tail

/-- Total number of bytes of an operation list. -/
def sumLen (ops : List Operation) : Nat := (ops.map Operation.len).sum

/-- `I2c::transaction` (src/tm4c-hal/src/i2c.rs lines 138-354): empty check,
zero-length validation (both return `ErrorKind::Other`/success before any
register access), the first-operation prologue with its one-shot special
cases, then the main loop. -/
def transaction (addr : Nat) (ops : List Operation) (sts : List BusStatus)
    (rdata : List Nat) : List Event × TOutcome :=
  if ops.isEmpty then ([], TOutcome.ok)
  else if ops.any fun op => op.len == 0 then ([], TOutcome.err ErrorKind.other)
  else
    match ops[0]? with
    | none => ([], TOutcome.stuck)
    | some op0 =>
        let fuel := sumLen ops + 1
        let one_op : Bool := ops.length == 1
        let op_change : Bool :=
          !one_op && (op0.isRead != (ops.getD 1 (Operation.write [])).isRead)
        match op0 with
        | Operation.write bytes =>
            emit [Event.writeMSA addr false, Event.writeMDR (bytes.getD 0 0)] <|
              andThenW (busyWaitBusbsy sts) fun sts1 =>
                if one_op && bytes.length == 1 then
                  -- special case for single byte write transaction (lines 182-189)
                  emit [Event.writeMCS true true true false] <|
                    andThenW (busyWaitPlain sts1) fun _ => ([], TOutcome.ok)
                else
                  emit [Event.writeMCS true true false false] <|
                    andThenW (busyWaitPlain sts1) fun sts2 =>
                      if bytes.length = 1 then
                        transLoop addr ops fuel op_change 1 0 sts2 rdata
                      else
                        transLoop addr ops fuel false 0 1 sts2 rdata
        | Operation.read n =>
            emit [Event.writeMSA addr true] <|
              if one_op && n == 1 then
                -- special case for single byte read transaction (lines 203-211)
                andThenW (busyWaitBusbsy sts) fun sts1 =>
                  emit [Event.writeMCS true true true false] <|
                    andThenW (busyWaitPlain sts1) fun _ =>
                      ([Event.readMDR (rdata.headD 0)], TOutcome.ok)
              else
                andThenW (busyWaitBusbsy sts) fun sts1 =>
                  emit [Event.writeMCS true true false (!(op_change && n == 1))] <|
                    andThenW (busyWaitPlain sts1) fun sts2 =>
                      emit [Event.readMDR (rdata.headD 0)] <|
                        if n = 1 then
                          transLoop addr ops fuel op_change 1 0 sts2 rdata.tail
                        else
                          transLoop addr ops fuel false 0 1 sts2 rdata.tail

/-- Register-level observable: the address, data and command register
effects of a trace (status polls and the watchdog programming are dropped;
a received byte is recorded positionally, its value comes from the bus). -/
inductive Obs : Type
  | msa (sa : Nat) (rs : Bool)
  | mdr (d : Nat)
  | cmd (start run stop ack : Bool)
  | rd
deriving DecidableEq

/-- Project a trace to its register-level observables. -/
def obsOf (tr : List Event) : List Obs :=
  tr.filterMap fun e =>
    match e with
    | Event.writeMSA sa rs => some (Obs.msa sa rs)
    | Event.writeMDR d => some (Obs.mdr d)
    | Event.writeMCS s r st a => some (Obs.cmd s r st a)
    | Event.readMDR _ => some Obs.rd
    | _ => none

/-- Expected observables of one write run: data byte then command for each
byte; START only on the first byte (when `start`), STOP only on the last
byte of the final operation (`stopEnd`). -/
def writeRun (start stopEnd : Bool) : List Nat → List Obs
  | [] => []
  | [b] => [Obs.mdr b, Obs.cmd start true stopEnd false]
  | b :: b2 :: rest =>
      Obs.mdr b :: Obs.cmd start true false false :: writeRun false stopEnd (b2 :: rest)

/-- Expected observables of one read run: command then received byte for
each byte; ACK on every byte except the last when the last is NACKed
(direction change, `nackEnd`) or carries STOP (final operation, `stopEnd`). -/
def readRun (start nackEnd stopEnd : Bool) : Nat → List Obs
  | 0 => []
  | 1 => [Obs.cmd start true stopEnd (!(nackEnd || stopEnd)), Obs.rd]
  | n + 2 => Obs.cmd start true false true :: Obs.rd :: readRun false nackEnd stopEnd (n + 1)

/-- Expected observables of one operation given the following operation
(`nxt = none` for the final operation): address register rewritten exactly
when a START is pending. -/
def opObs (addr : Nat) (start : Bool) (op : Operation) (nxt : Option Operation) : List Obs :=
  match op with
  | Operation.write bytes =>
      (if start then [Obs.msa addr false] else []) ++ writeRun start nxt.isNone bytes
  | Operation.read n =>
      (if start then [Obs.msa addr true] else []) ++
        readRun start (match nxt with | some op2 => !op2.isRead | none => false) nxt.isNone n

/-- Whether a pending START is carried into the operation after `op`
(direction change), mirroring `start = op_change` in the source. -/
def nextStart (op : Operation) (rest : List Operation) : Bool :=
  match rest.head? with
  | some op2 => op.isRead != op2.isRead
  | none => false

/-- Expected register-level observables of a whole operation sequence,
read off the source's transaction loop. -/
def skelOps (addr : Nat) : Bool → List Operation → List Obs
  | _, [] => []
  | start, op :: rest => opObs addr start op rest.head? ++ skelOps addr (nextStart op rest) rest

/-- Operations still to be processed from loop state `(op_i, byte_i)`. -/
def truncOps (ops : List Operation) (op_i byte_i : Nat) : List Operation :=
  match ops.drop op_i with
  | [] => []
  | op :: rest => op.dropB byte_i :: rest

/-- Command-register writes of an observable list, as
(start, run, stop, ack) tuples. -/
def cmdList (l : List Obs) : List (Bool × Bool × Bool × Bool) :=
  l.filterMap fun o =>
    match o with
    | Obs.cmd s r st a => some (s, r, st, a)
    | _ => none

/-- Address-register writes of an observable list, as (address, rs) pairs. -/
def msaList (l : List Obs) : List (Nat × Bool) :=
  l.filterMap fun o =>
    match o with
    | Obs.msa sa rs => some (sa, rs)
    | _ => none

/-- Data-register writes of an observable list. -/
def mdrList (l : List Obs) : List Nat :=
  l.filterMap fun o =>
    match o with
    | Obs.mdr d => some d
    | _ => none

/-- Number of commands asserting START. -/
def startCount (l : List Obs) : Nat := (cmdList l).countP fun c => c.1

/-- Number of commands asserting STOP. -/
def stopCount (l : List Obs) : Nat := (cmdList l).countP fun c => c.2.2.1

/-- Number of RUN-only commands: RUN with neither START nor STOP. -/
def runOnlyCount (l : List Obs) : Nat :=
  (cmdList l).countP fun c => !c.1 && c.2.1 && !c.2.2.1

/-- ACK bits of the commands that clock in a received byte (the command
immediately preceding each data-register read). -/
def readAcks : List Obs → List Bool
  | Obs.cmd _ _ _ a :: Obs.rd :: rest2 => a :: readAcks rest2
  | _ :: rest => readAcks rest
  | [] => []

/-- Directions (isRead) of the operations that open a maximal run of
same-direction operations, threading the pending-START flag. -/
def runDirsFrom : Bool → List Operation → List Bool
  | _, [] => []
  | start, op :: rest =>
      (if start then [op.isRead] else []) ++ runDirsFrom (nextStart op rest) rest

/-- Directions of the maximal same-direction runs of an operation list:
the first operation and every operation following a direction change. -/
def runDirs (ops : List Operation) : List Bool := runDirsFrom true ops

/-- Expected ACK bits for one read operation of `n` bytes: ACK everywhere,
except the last byte when `suppress`. -/
def readAckSpecOp (suppress : Bool) : Nat → List Bool
  | 0 => []
  | 1 => [!suppress]
  | n + 2 => true :: readAckSpecOp suppress (n + 1)

/-- Expected ACK bits contributed by one operation: none for writes; for a
read, ACK suppressed on its last byte exactly when it is the final
operation or the next operation is a write. -/
def opAckSpec : Operation → Option Operation → List Bool
  | Operation.write _, _ => []
  | Operation.read n, nxt =>
      readAckSpecOp (match nxt with | some op2 => !op2.isRead | none => true) n

/-- Expected ACK bits of all received bytes of an operation list. -/
def ackSpec : List Operation → List Bool
  | [] => []
  | op :: rest => opAckSpec op rest.head? ++ ackSpec rest

/-- The timing-divisor value programmed by `new`
(src/tm4c-hal/src/i2c.rs line 120): `((sysclk / (2 * 10 * freq)) - 1) as u8`
evaluated with release-mode `u32` semantics.  The multiplication and the
subtraction wrap modulo `2 ^ 32`, so a quotient of 0 (when
`sysclk < 20 * freq`) yields 255 after the `as u8` cast `% 256`; a debug
build would panic on that underflow instead, and both builds panic if
`20 * freq` wraps to 0 (where Lean division by zero makes this model
return 255). -/
def tpr (sysclk freq : Nat) : Nat :=
  ((sysclk / ((2 * 10 * freq) % 2 ^ 32) + 2 ^ 32 - 1) % 2 ^ 32) % 256

/-- Round-to-nearest division (halves round up), the reading of
`round(system_clock / (2 * 10 * target_frequency))` in the claim. -/
def roundDiv (a b : Nat) : Nat := (2 * a + b) / (2 * b)

/-- Status snapshot with every flag clear: a cleanly completed bus cycle
(fields: busbsy, error, arblst, adrack, datack, clkto). -/
def okStatus : BusStatus := ⟨false, false, false, false, false, false⟩

/-- Status snapshot reporting arbitration loss (error and arblst set). -/
def arbStatus : BusStatus := ⟨false, true, true, false, false, false⟩

/-- Status snapshot reporting an address NACK (error and adrack set). -/
def adrNackStatus : BusStatus := ⟨false, true, false, true, false, false⟩

/-- Status snapshot reporting a watchdog clock timeout (clkto set). -/
def clktoStatus : BusStatus := ⟨false, false, false, false, false, true⟩

theorem obsOf_nil : obsOf [] = [] := rfl

theorem obsOf_append (a b : List Event) : obsOf (a ++ b) = obsOf a ++ obsOf b := by
  simp [obsOf]

@[simp] theorem obsOf_nil_simp : obsOf [] = [] := rfl

@[simp] theorem obsOf_cons_msa (sa : Nat) (rs : Bool) (tr : List Event) :
    obsOf (Event.writeMSA sa rs :: tr) = Obs.msa sa rs :: obsOf tr := rfl

@[simp] theorem obsOf_cons_mdr (d : Nat) (tr : List Event) :
    obsOf (Event.writeMDR d :: tr) = Obs.mdr d :: obsOf tr := rfl

@[simp] theorem obsOf_cons_mcs (s r st a : Bool) (tr : List Event) :
    obsOf (Event.writeMCS s r st a :: tr) = Obs.cmd s r st a :: obsOf tr := rfl

@[simp] theorem obsOf_cons_mclk (v : Nat) (tr : List Event) :
    obsOf (Event.writeMCLKOCNT v :: tr) = obsOf tr := rfl

@[simp] theorem obsOf_cons_readMCS (tr : List Event) :
    obsOf (Event.readMCS :: tr) = obsOf tr := rfl

@[simp] theorem obsOf_cons_readMDR (d : Nat) (tr : List Event) :
    obsOf (Event.readMDR d :: tr) = Obs.rd :: obsOf tr := rfl

theorem classifyStopEvents_of_none (s : BusStatus) (h : classify s = none) :
    classifyStopEvents s = [] := by
  unfold classify at h
  unfold classifyStopEvents
  split_ifs at h ⊢ <;> simp_all

theorem classifyStopEvents_of_nack (s : BusStatus) (src : NoAcknowledgeSource)
    (h : classify s = some (ErrorKind.noAcknowledge src)) :
    classifyStopEvents s = [Event.writeMCS false false true false] := by
  unfold classify at h
  unfold classifyStopEvents
  split_ifs at h ⊢ <;> simp_all

theorem busyWaitPlain_ok_obs (sts : List BusStatus)
    (h : (busyWaitPlain sts).2.2 = WaitRes.ok) : obsOf (busyWaitPlain sts).1 = [] := by
  cases sts with
  | nil => simp [busyWaitPlain] at h
  | cons s rest =>
      cases hc : classify s with
      | some e => simp [busyWaitPlain, hc] at h
      | none => simp [busyWaitPlain, hc, obsOf, classifyStopEvents_of_none s hc]

theorem busbsyLoop_ok_obs (sts : List BusStatus)
    (h : (busbsyLoop sts).2.2 = WaitRes.ok) : obsOf (busbsyLoop sts).1 = [] := by
  induction sts with
  | nil => simp [busbsyLoop] at h
  | cons s rest ih =>
      cases hc : classify s with
      | some e => simp [busbsyLoop, hc] at h
      | none =>
          by_cases hb : s.busbsy
          · simp only [busbsyLoop, hc, hb, if_true] at h ⊢
            simpa [obsOf] using ih h
          · simp [busbsyLoop, hc, hb, obsOf]

theorem busyWaitBusbsy_ok_obs (sts : List BusStatus)
    (h : (busyWaitBusbsy sts).2.2 = WaitRes.ok) : obsOf (busyWaitBusbsy sts).1 = [] := by
  cases sts with
  | nil => simp [busyWaitBusbsy] at h
  | cons s rest =>
      cases hc : classify s with
      | some e => simp [busyWaitBusbsy, hc] at h
      | none =>
          by_cases hb : s.busbsy
          · simp only [busyWaitBusbsy, hc, hb, if_true] at h ⊢
            simpa [obsOf] using busbsyLoop_ok_obs rest h
          · simp [busyWaitBusbsy, hc, hb, obsOf]

theorem emit_ok {evs : List Event} {r : List Event × TOutcome} {tr : List Event}
    (h : emit evs r = (tr, TOutcome.ok)) :
    r.2 = TOutcome.ok ∧ tr = evs ++ r.1 := by
  unfold emit at h
  injection h with h1 h2
  exact ⟨h2, h1.symm⟩

theorem andThenW_ok {w : List Event × List BusStatus × WaitRes}
    {k : List BusStatus → List Event × TOutcome} {tr : List Event}
    (h : andThenW w k = (tr, TOutcome.ok)) :
    w.2.2 = WaitRes.ok ∧ (k w.2.1).2 = TOutcome.ok ∧ tr = w.1 ++ (k w.2.1).1 := by
  unfold andThenW at h
  cases hw : w.2.2 with
  | ok =>
      rw [hw] at h
      obtain ⟨h1, h2⟩ := emit_ok h
      exact ⟨rfl, h1, h2⟩
  | err e => rw [hw] at h; simp at h
  | hang => rw [hw] at h; simp at h

theorem pair_eta_ok {p : List Event × TOutcome} (h : p.2 = TOutcome.ok) :
    p = (p.1, TOutcome.ok) := by rw [← h]

theorem emit_andThenW_ok {E : List Event} {w : List Event × List BusStatus × WaitRes}
    {k : List BusStatus → List Event × TOutcome} {tr : List Event}
    (h : emit E (andThenW w k) = (tr, TOutcome.ok)) :
    w.2.2 = WaitRes.ok ∧ (k w.2.1).2 = TOutcome.ok ∧ tr = E ++ (w.1 ++ (k w.2.1).1) := by
  obtain ⟨h1, h2⟩ := emit_ok h
  obtain ⟨hw, hk, happ⟩ := andThenW_ok (pair_eta_ok h1)
  exact ⟨hw, hk, by rw [h2, happ]⟩

theorem dropB_zero (op : Operation) : op.dropB 0 = op := by
  cases op <;> simp [Operation.dropB]

theorem dropB_isRead (op : Operation) (k : Nat) : (op.dropB k).isRead = op.isRead := by
  cases op <;> simp [Operation.dropB, Operation.isRead]

theorem truncOps_eq (ops : List Operation) (op_i byte_i : Nat) (h : op_i < ops.length) :
    truncOps ops op_i byte_i = ops[op_i].dropB byte_i :: ops.drop (op_i + 1) := by
  unfold truncOps
  rw [List.drop_eq_getElem_cons h]

@[simp] theorem isRead_write (bytes : List Nat) : (Operation.write bytes).isRead = false := rfl

@[simp] theorem isRead_read (n : Nat) : (Operation.read n).isRead = true := rfl

@[simp] theorem len_write (bytes : List Nat) : (Operation.write bytes).len = bytes.length := rfl

@[simp] theorem len_read (n : Nat) : (Operation.read n).len = n := rfl

theorem skelOps_cons (addr : Nat) (start : Bool) (op : Operation) (rest : List Operation) :
    skelOps addr start (op :: rest) =
      opObs addr start op rest.head? ++ skelOps addr (nextStart op rest) rest := rfl

theorem skelOps_write_one (addr : Nat) (start : Bool) (b : Nat) (op2 : Operation)
    (rest2 : List Operation) :
    skelOps addr start (Operation.write [b] :: op2 :: rest2) =
      (if start then [Obs.msa addr false] else []) ++
        Obs.mdr b :: Obs.cmd start true false false ::
          skelOps addr (false != op2.isRead) (op2 :: rest2) := by
  rw [skelOps_cons]
  simp [opObs, writeRun, nextStart]

theorem skelOps_read_one (addr : Nat) (start : Bool) (op2 : Operation)
    (rest2 : List Operation) :
    skelOps addr start (Operation.read 1 :: op2 :: rest2) =
      (if start then [Obs.msa addr true] else []) ++
        Obs.cmd start true false op2.isRead :: Obs.rd ::
          skelOps addr (true != op2.isRead) (op2 :: rest2) := by
  rw [skelOps_cons]
  simp [opObs, readRun, nextStart]

theorem skelOps_write_step (addr : Nat) (start : Bool) (rest : List Operation)
    (b : Nat) (bs : List Nat) (h : bs ≠ []) :
    skelOps addr start (Operation.write (b :: bs) :: rest) =
      (if start then [Obs.msa addr false] else []) ++
        Obs.mdr b :: Obs.cmd start true false false ::
          skelOps addr false (Operation.write bs :: rest) := by
  cases bs with
  | nil => exact absurd rfl h
  | cons b2 bs2 =>
      simp [skelOps, opObs, writeRun, nextStart, Operation.isRead]

theorem skelOps_read_step (addr : Nat) (start : Bool) (rest : List Operation)
    (n : Nat) (h : 2 ≤ n) :
    skelOps addr start (Operation.read n :: rest) =
      (if start then [Obs.msa addr true] else []) ++
        Obs.cmd start true false true :: Obs.rd ::
          skelOps addr false (Operation.read (n - 1) :: rest) := by
  obtain ⟨m, rfl⟩ : ∃ m, n = m + 2 := ⟨n - 2, by omega⟩
  have hm : m + 2 - 1 = m + 1 := by omega
  simp [skelOps, opObs, readRun, nextStart, Operation.isRead, hm]

theorem getD_of_lt {α : Type} (l : List α) (d : α) (n : Nat) (h : n < l.length) :
    l.getD n d = l[n] := by
  simp [List.getD_eq_getElem?_getD, List.getElem?_eq_getElem h]

theorem loop_obs (addr : Nat) (ops : List Operation)
    (hlen : ∀ op ∈ ops, 0 < op.len) :
    ∀ fuel start op_i byte_i sts rdata tr,
      op_i < ops.length →
      byte_i < (ops.getD op_i (Operation.write [])).len →
      transLoop addr ops fuel start op_i byte_i sts rdata = (tr, TOutcome.ok) →
      obsOf tr = skelOps addr start (truncOps ops op_i byte_i) := by
  intro fuel
  induction fuel with
  | zero =>
      intro start op_i byte_i sts rdata tr _ _ h
      simp [transLoop] at h
  | succ fuel ih =>
      intro start op_i byte_i sts rdata tr hop hbyte h
      have hsome : ops[op_i]? = some ops[op_i] := List.getElem?_eq_getElem hop
      have hgd : ops.getD op_i (Operation.write []) = ops[op_i] :=
        getD_of_lt ops (Operation.write []) op_i hop
      rw [hgd] at hbyte
      have htr := truncOps_eq ops op_i byte_i hop
      cases hv : ops[op_i] with
      | write bytes =>
          rw [hv] at hsome hbyte htr
          simp only [len_write] at hbyte
          simp only [transLoop, hsome, len_write, isRead_write] at h
          by_cases hbr : op_i = ops.length - 1 ∧ byte_i = bytes.length - 1
          · -- last byte of the last operation: STOP command, closing bus-idle wait
            rw [if_pos hbr] at h
            obtain ⟨hw, hk, htr2⟩ := emit_andThenW_ok h
            have hdrop1 : ops.drop (op_i + 1) = [] := by
              rw [List.drop_eq_nil_iff]; omega
            have hb1 : bytes.drop byte_i = [bytes[byte_i]] := by
              rw [List.drop_eq_getElem_cons hbyte, List.drop_eq_nil_iff.mpr (by omega)]
            subst htr2
            rw [htr, hdrop1]
            cases start <;>
              simp [obsOf_append, busyWaitBusbsy_ok_obs _ hw, skelOps, opObs,
                Operation.dropB, hb1, writeRun, List.getElem?_eq_getElem hbyte]
          · rw [if_neg hbr] at h
            obtain ⟨hw, hk, htr2⟩ := emit_andThenW_ok h
            by_cases hadv : byte_i + 1 = bytes.length
            · -- advance to the next operation
              have hlast : ¬ op_i = ops.length - 1 := fun hA => hbr ⟨hA, by omega⟩
              rw [if_pos hadv, if_neg hlast] at hk htr2
              have hop2 : op_i + 1 < ops.length := by omega
              have hgd2 : ops.getD (op_i + 1) (Operation.write []) = ops[op_i + 1] :=
                getD_of_lt ops (Operation.write []) (op_i + 1) hop2
              rw [hgd2] at hk htr2
              have hlen2 : 0 < ops[op_i + 1].len := hlen _ (List.getElem_mem hop2)
              have hih := ih (false != ops[op_i + 1].isRead) (op_i + 1) 0
                (busyWaitPlain sts).2.1 rdata _ hop2
                (by rw [hgd2]; exact hlen2) (pair_eta_ok hk)
              rw [truncOps_eq ops (op_i + 1) 0 hop2, dropB_zero] at hih
              have hb1 : bytes.drop byte_i = [bytes[byte_i]] := by
                rw [List.drop_eq_getElem_cons hbyte, List.drop_eq_nil_iff.mpr (by omega)]
              subst htr2
              rw [htr, List.drop_eq_getElem_cons hop2]
              simp only [Operation.dropB, hb1]
              rw [skelOps_write_one, ← hih]
              cases start <;>
                simp [obsOf_append, busyWaitPlain_ok_obs _ hw,
                  List.getElem?_eq_getElem hbyte]
            · -- next byte of the same operation
              rw [if_neg hadv] at hk htr2
              have hlt : byte_i + 1 < bytes.length := by omega
              have hih := ih false op_i (byte_i + 1) (busyWaitPlain sts).2.1 rdata _ hop
                (by rw [hgd, hv]; simpa [Operation.len] using hlt) (pair_eta_ok hk)
              rw [truncOps_eq ops op_i (byte_i + 1) hop, hv] at hih
              have hstep := skelOps_write_step addr start (ops.drop (op_i + 1))
                bytes[byte_i] (bytes.drop (byte_i + 1))
                (by rw [Ne, List.drop_eq_nil_iff]; omega)
              subst htr2
              rw [htr]
              simp only [Operation.dropB] at hih ⊢
              rw [List.drop_eq_getElem_cons hbyte, hstep]
              cases start <;>
                simp [obsOf_append, busyWaitPlain_ok_obs _ hw, hih,
                  List.getElem?_eq_getElem hbyte]
      | read n =>
          rw [hv] at hsome hbyte htr
          simp only [len_read] at hbyte
          simp only [transLoop, hsome, len_read, isRead_read] at h
          by_cases hbr : op_i = ops.length - 1 ∧ byte_i = n - 1
          · -- last byte of the last operation: STOP command, read back, closing wait
            rw [if_pos hbr] at h
            obtain ⟨hw, hk, htr2⟩ := emit_andThenW_ok h
            dsimp only [emit] at hk htr2
            obtain ⟨hw2, hk2, htr3⟩ := andThenW_ok (pair_eta_ok hk)
            have hdrop1 : ops.drop (op_i + 1) = [] := by
              rw [List.drop_eq_nil_iff]; omega
            have hn1 : n - byte_i = 1 := by omega
            subst htr2
            rw [htr, hdrop1, htr3]
            cases start <;>
              simp [obsOf_append, busyWaitPlain_ok_obs _ hw,
                busyWaitBusbsy_ok_obs _ hw2, skelOps, opObs, Operation.dropB, hn1, readRun]
          · rw [if_neg hbr] at h
            obtain ⟨hw, hk, htr2⟩ := emit_andThenW_ok h
            dsimp only [emit] at hk htr2
            by_cases hadv : byte_i + 1 = n
            · -- advance to the next operation (NACK when the direction flips)
              have hlast : ¬ op_i = ops.length - 1 := fun hA => hbr ⟨hA, by omega⟩
              have hbeq : (byte_i == n - 1) = true := by
                simpa using (by omega : byte_i = n - 1)
              rw [if_pos hadv, if_neg hlast] at hk htr2
              rw [hbeq] at htr2
              have hop2 : op_i + 1 < ops.length := by omega
              have hgd2 : ops.getD (op_i + 1) (Operation.write []) = ops[op_i + 1] :=
                getD_of_lt ops (Operation.write []) (op_i + 1) hop2
              rw [hgd2] at hk htr2
              have hlen2 : 0 < ops[op_i + 1].len := hlen _ (List.getElem_mem hop2)
              have hih := ih (true != ops[op_i + 1].isRead) (op_i + 1) 0
                (busyWaitPlain sts).2.1 rdata.tail _ hop2
                (by rw [hgd2]; exact hlen2) (pair_eta_ok hk)
              rw [truncOps_eq ops (op_i + 1) 0 hop2, dropB_zero] at hih
              have hn1 : n - byte_i = 1 := by omega
              subst htr2
              rw [htr, List.drop_eq_getElem_cons hop2]
              simp only [Operation.dropB, hn1]
              rw [skelOps_read_one, ← hih]
              cases start <;> cases hdir : ops[op_i + 1].isRead <;>
                simp [obsOf_append, busyWaitPlain_ok_obs _ hw, hdir]
            · -- next byte of the same operation
              have hbeq : (byte_i == n - 1) = false := by
                simpa using (by omega : ¬ byte_i = n - 1)
              rw [if_neg hadv] at hk htr2
              rw [hbeq] at htr2
              have hlt : byte_i + 1 < n := by omega
              have hih := ih false op_i (byte_i + 1) (busyWaitPlain sts).2.1 rdata.tail _ hop
                (by rw [hgd, hv]; simpa [Operation.len] using hlt) (pair_eta_ok hk)
              rw [truncOps_eq ops op_i (byte_i + 1) hop, hv] at hih
              have hstep := skelOps_read_step addr start (ops.drop (op_i + 1))
                (n - byte_i) (by omega)
              subst htr2
              rw [htr]
              simp only [Operation.dropB] at hih ⊢
              have hsub : n - byte_i - 1 = n - (byte_i + 1) := by omega
              rw [hstep, hsub]
              cases start <;>
                simp [obsOf_append, busyWaitPlain_ok_obs _ hw, hih]

theorem transaction_obs (addr : Nat) (ops : List Operation) (sts : List BusStatus)
    (rdata : List Nat) (tr : List Event)
    (hne : ops ≠ []) (hlen : ∀ op ∈ ops, 0 < op.len)
    (h : transaction addr ops sts rdata = (tr, TOutcome.ok)) :
    obsOf tr = skelOps addr true ops := by
  cases ops with
  | nil => exact absurd rfl hne
  | cons op0 rest =>
      have hany : ((op0 :: rest).any fun op => op.len == 0) = false := by
        rw [List.any_eq_false]
        intro op hop
        simpa using (hlen op hop).ne'
      cases op0 with
      | write bytes =>
          cases bytes with
          | nil =>
              have h0 := hlen (Operation.write []) (List.mem_cons_self _ _)
              simp at h0
          | cons b bs =>
              cases rest with
              | nil =>
                  cases bs with
                  | nil =>
                      -- one-shot single byte write
                      simp only [transaction, hany] at h
                      simp at h
                      obtain ⟨hw1, hk1, htr1⟩ := emit_andThenW_ok h
                      obtain ⟨hw2, hk2, htr2⟩ := emit_andThenW_ok (pair_eta_ok hk1)
                      subst htr1
                      rw [htr2]
                      simp [obsOf_append, busyWaitBusbsy_ok_obs _ hw1,
                        busyWaitPlain_ok_obs _ hw2, skelOps, opObs, writeRun]
                  | cons b2 bs2 =>
                      simp only [transaction, hany] at h
                      simp at h
                      obtain ⟨hw1, hk1, htr1⟩ := emit_andThenW_ok h
                      obtain ⟨hw2, hk2, htr2⟩ := emit_andThenW_ok (pair_eta_ok hk1)
                      have hloop := loop_obs addr [Operation.write (b :: b2 :: bs2)] hlen
                        _ false 0 1 _ rdata _ (by simp) (by simp) (pair_eta_ok hk2)
                      simp only [truncOps, List.drop_succ_cons, List.drop_nil,
                        List.drop_zero, Operation.dropB, List.drop_one, List.tail_cons] at hloop
                      subst htr1
                      rw [htr2, skelOps_write_step addr true [] b (b2 :: bs2) (by simp)]
                      simp [obsOf_append, busyWaitBusbsy_ok_obs _ hw1,
                        busyWaitPlain_ok_obs _ hw2, hloop, skelOps, opObs, writeRun]
              | cons op2 rest2 =>
                  have hlen2 : 0 < op2.len := hlen op2 (by simp)
                  cases bs with
                  | nil =>
                      -- first operation is a one-byte write, more operations follow
                      simp only [transaction, hany] at h
                      simp at h
                      obtain ⟨hw1, hk1, htr1⟩ := emit_andThenW_ok h
                      obtain ⟨hw2, hk2, htr2⟩ := emit_andThenW_ok (pair_eta_ok hk1)
                      have hloop := loop_obs addr (Operation.write [b] :: op2 :: rest2) hlen
                        _ _ 1 0 _ rdata _ (by simp) (by simpa using hlen2) (pair_eta_ok hk2)
                      simp only [truncOps, List.drop_succ_cons, List.drop_zero,
                        dropB_zero] at hloop
                      subst htr1
                      rw [htr2, skelOps_write_one]
                      simp [obsOf_append, busyWaitBusbsy_ok_obs _ hw1,
                        busyWaitPlain_ok_obs _ hw2, hloop]
                  | cons b2 bs2 =>
                      simp only [transaction, hany] at h
                      simp at h
                      obtain ⟨hw1, hk1, htr1⟩ := emit_andThenW_ok h
                      obtain ⟨hw2, hk2, htr2⟩ := emit_andThenW_ok (pair_eta_ok hk1)
                      have hloop := loop_obs addr
                        (Operation.write (b :: b2 :: bs2) :: op2 :: rest2) hlen
                        _ false 0 1 _ rdata _ (by simp) (by simp) (pair_eta_ok hk2)
                      simp only [truncOps, List.drop_succ_cons, List.drop_zero,
                        Operation.dropB, List.drop_one, List.tail_cons] at hloop
                      subst htr1
                      rw [htr2, skelOps_write_step addr true (op2 :: rest2) b (b2 :: bs2)
                        (by simp)]
                      simp [obsOf_append, busyWaitBusbsy_ok_obs _ hw1,
                        busyWaitPlain_ok_obs _ hw2, hloop]
      | read n =>
          cases n with
          | zero =>
              have h0 := hlen (Operation.read 0) (List.mem_cons_self _ _)
              simp at h0
          | succ m1 =>
              cases rest with
              | nil =>
                  cases m1 with
                  | zero =>
                      -- one-shot single byte read
                      simp only [transaction, hany] at h
                      simp at h
                      obtain ⟨h1, htr1⟩ := emit_ok h
                      obtain ⟨hw1, hk1, htr2⟩ := andThenW_ok (pair_eta_ok h1)
                      obtain ⟨hw2, hk2, htr3⟩ := emit_andThenW_ok (pair_eta_ok hk1)
                      subst htr1
                      rw [htr2, htr3]
                      simp [obsOf_append, busyWaitBusbsy_ok_obs _ hw1,
                        busyWaitPlain_ok_obs _ hw2, skelOps, opObs, readRun]
                  | succ m2 =>
                      -- single multi-byte read
                      simp only [transaction, hany] at h
                      simp at h
                      obtain ⟨h1, htr1⟩ := emit_ok h
                      obtain ⟨hw1, hk1, htr2⟩ := andThenW_ok (pair_eta_ok h1)
                      obtain ⟨hw2, hk2, htr3⟩ := emit_andThenW_ok (pair_eta_ok hk1)
                      simp only [emit] at hk2
                      have hloop := loop_obs addr [Operation.read (m2 + 1 + 1)] hlen
                        _ false 0 1 _ rdata.tail _ (by simp) (by simp) (pair_eta_ok hk2)
                      simp only [truncOps, List.drop_succ_cons, List.drop_zero,
                        Operation.dropB] at hloop
                      subst htr1
                      rw [htr2, htr3, skelOps_read_step addr true [] (m2 + 1 + 1) (by omega)]
                      have hm : m2 + 1 + 1 - 1 = m2 + 1 := by omega
                      rw [hm]
                      simp [obsOf_append, emit, busyWaitBusbsy_ok_obs _ hw1,
                        busyWaitPlain_ok_obs _ hw2, hloop]
              | cons op2 rest2 =>
                  have hlen2 : 0 < op2.len := hlen op2 (by simp)
                  cases m1 with
                  | zero =>
                      -- first operation is a one-byte read, more operations follow
                      simp only [transaction, hany] at h
                      simp at h
                      obtain ⟨h1, htr1⟩ := emit_ok h
                      obtain ⟨hw1, hk1, htr2⟩ := andThenW_ok (pair_eta_ok h1)
                      obtain ⟨hw2, hk2, htr3⟩ := emit_andThenW_ok (pair_eta_ok hk1)
                      simp only [emit] at hk2
                      have hloop := loop_obs addr (Operation.read 1 :: op2 :: rest2) hlen
                        _ _ 1 0 _ rdata.tail _ (by simp) (by simpa using hlen2)
                        (pair_eta_ok hk2)
                      simp only [truncOps, List.drop_succ_cons, List.drop_zero,
                        dropB_zero] at hloop
                      subst htr1
                      rw [htr2, htr3, skelOps_read_one]
                      cases hdir : op2.isRead <;>
                        (simp only [hdir, Bool.not_true, Bool.not_false] at hloop;
                          simp [obsOf_append, emit, busyWaitBusbsy_ok_obs _ hw1,
                            busyWaitPlain_ok_obs _ hw2, hloop, hdir])
                  | succ m2 =>
                      -- first operation is a multi-byte read, more operations follow
                      simp only [transaction, hany] at h
                      simp at h
                      obtain ⟨h1, htr1⟩ := emit_ok h
                      obtain ⟨hw1, hk1, htr2⟩ := andThenW_ok (pair_eta_ok h1)
                      obtain ⟨hw2, hk2, htr3⟩ := emit_andThenW_ok (pair_eta_ok hk1)
                      simp only [emit] at hk2
                      have hloop := loop_obs addr
                        (Operation.read (m2 + 1 + 1) :: op2 :: rest2) hlen
                        _ false 0 1 _ rdata.tail _ (by simp) (by simp) (pair_eta_ok hk2)
                      simp only [truncOps, List.drop_succ_cons, List.drop_zero,
                        Operation.dropB] at hloop
                      subst htr1
                      rw [htr2, htr3, skelOps_read_step addr true (op2 :: rest2)
                        (m2 + 1 + 1) (by omega)]
                      have hm : m2 + 1 + 1 - 1 = m2 + 1 := by omega
                      rw [hm]
                      simp [obsOf_append, emit, busyWaitBusbsy_ok_obs _ hw1,
                        busyWaitPlain_ok_obs _ hw2, hloop]

@[simp] theorem cmdList_nil : cmdList [] = [] := rfl

@[simp] theorem cmdList_cons_msa (sa : Nat) (rs : Bool) (l : List Obs) :
    cmdList (Obs.msa sa rs :: l) = cmdList l := rfl

@[simp] theorem cmdList_cons_mdr (d : Nat) (l : List Obs) :
    cmdList (Obs.mdr d :: l) = cmdList l := rfl

@[simp] theorem cmdList_cons_cmd (s r st a : Bool) (l : List Obs) :
    cmdList (Obs.cmd s r st a :: l) = (s, r, st, a) :: cmdList l := rfl

@[simp] theorem cmdList_cons_rd (l : List Obs) : cmdList (Obs.rd :: l) = cmdList l := rfl

theorem cmdList_append (a b : List Obs) : cmdList (a ++ b) = cmdList a ++ cmdList b := by
  simp [cmdList]

@[simp] theorem msaList_nil : msaList [] = [] := rfl

@[simp] theorem msaList_cons_msa (sa : Nat) (rs : Bool) (l : List Obs) :
    msaList (Obs.msa sa rs :: l) = (sa, rs) :: msaList l := rfl

@[simp] theorem msaList_cons_mdr (d : Nat) (l : List Obs) :
    msaList (Obs.mdr d :: l) = msaList l := rfl

@[simp] theorem msaList_cons_cmd (s r st a : Bool) (l : List Obs) :
    msaList (Obs.cmd s r st a :: l) = msaList l := rfl

@[simp] theorem msaList_cons_rd (l : List Obs) : msaList (Obs.rd :: l) = msaList l := rfl

theorem msaList_append (a b : List Obs) : msaList (a ++ b) = msaList a ++ msaList b := by
  simp [msaList]

@[simp] theorem mdrList_nil : mdrList [] = [] := rfl

@[simp] theorem mdrList_cons_msa (sa : Nat) (rs : Bool) (l : List Obs) :
    mdrList (Obs.msa sa rs :: l) = mdrList l := rfl

@[simp] theorem mdrList_cons_mdr (d : Nat) (l : List Obs) :
    mdrList (Obs.mdr d :: l) = d :: mdrList l := rfl

@[simp] theorem mdrList_cons_cmd (s r st a : Bool) (l : List Obs) :
    mdrList (Obs.cmd s r st a :: l) = mdrList l := rfl

@[simp] theorem mdrList_cons_rd (l : List Obs) : mdrList (Obs.rd :: l) = mdrList l := rfl

theorem mdrList_append (a b : List Obs) : mdrList (a ++ b) = mdrList a ++ mdrList b := by
  simp [mdrList]

theorem startCount_append (a b : List Obs) :
    startCount (a ++ b) = startCount a + startCount b := by
  simp [startCount, cmdList_append, List.countP_append]

theorem stopCount_append (a b : List Obs) :
    stopCount (a ++ b) = stopCount a + stopCount b := by
  simp [stopCount, cmdList_append, List.countP_append]

theorem runOnlyCount_append (a b : List Obs) :
    runOnlyCount (a ++ b) = runOnlyCount a + runOnlyCount b := by
  simp [runOnlyCount, cmdList_append, List.countP_append]

theorem mdrList_writeRun : ∀ (s st : Bool) (bs : List Nat), mdrList (writeRun s st bs) = bs
  | _, _, [] => rfl
  | _, _, [_] => rfl
  | s, st, b :: b2 :: bs => by
      simp [writeRun, mdrList_writeRun false st (b2 :: bs)]

theorem mdrList_readRun : ∀ (s nk st : Bool) (n : Nat), mdrList (readRun s nk st n) = []
  | _, _, _, 0 => rfl
  | _, _, _, 1 => rfl
  | s, nk, st, n + 2 => by
      simp [readRun, mdrList_readRun false nk st (n + 1)]

theorem msaList_writeRun : ∀ (s st : Bool) (bs : List Nat), msaList (writeRun s st bs) = []
  | _, _, [] => rfl
  | _, _, [_] => rfl
  | s, st, b :: b2 :: bs => by
      simp [writeRun, msaList_writeRun false st (b2 :: bs)]

theorem msaList_readRun : ∀ (s nk st : Bool) (n : Nat), msaList (readRun s nk st n) = []
  | _, _, _, 0 => rfl
  | _, _, _, 1 => rfl
  | s, nk, st, n + 2 => by
      simp [readRun, msaList_readRun false nk st (n + 1)]

theorem startCount_writeRun : ∀ (s st : Bool) (b : Nat) (bs : List Nat),
    startCount (writeRun s st (b :: bs)) = if s then 1 else 0
  | s, st, b, [] => by cases s <;> simp [writeRun, startCount, List.countP_cons]
  | s, st, b, b2 :: bs => by
      have ih := startCount_writeRun false st b2 bs
      cases s <;> simp_all [writeRun, startCount, List.countP_cons]

theorem startCount_readRun : ∀ (s nk st : Bool) (n : Nat),
    startCount (readRun s nk st (n + 1)) = if s then 1 else 0
  | s, nk, st, 0 => by cases s <;> simp [readRun, startCount, List.countP_cons]
  | s, nk, st, n + 1 => by
      have ih := startCount_readRun false nk st n
      cases s <;> simp_all [readRun, startCount, List.countP_cons]

theorem stopCount_writeRun : ∀ (s st : Bool) (b : Nat) (bs : List Nat),
    stopCount (writeRun s st (b :: bs)) = if st then 1 else 0
  | s, st, b, [] => by cases st <;> simp [writeRun, stopCount, List.countP_cons]
  | s, st, b, b2 :: bs => by
      have ih := stopCount_writeRun false st b2 bs
      cases st <;> simp_all [writeRun, stopCount, List.countP_cons]

theorem stopCount_readRun : ∀ (s nk st : Bool) (n : Nat),
    stopCount (readRun s nk st (n + 1)) = if st then 1 else 0
  | s, nk, st, 0 => by cases st <;> simp [readRun, stopCount, List.countP_cons]
  | s, nk, st, n + 1 => by
      have ih := stopCount_readRun false nk st n
      cases st <;> simp_all [readRun, stopCount, List.countP_cons]

theorem runOnlyCount_writeRun : ∀ (s st : Bool) (b : Nat) (bs : List Nat),
    runOnlyCount (writeRun s st (b :: bs)) =
      (bs.length + 1) - (if s then 1 else 0) - (if st then 1 else 0)
  | s, st, b, [] => by
      cases s <;> cases st <;> simp [writeRun, runOnlyCount, List.countP_cons]
  | s, st, b, b2 :: bs => by
      have ih := runOnlyCount_writeRun false st b2 bs
      cases s <;> cases st <;> simp_all [writeRun, runOnlyCount, List.countP_cons] <;> omega

@[simp] theorem startCount_nil : startCount [] = 0 := rfl

@[simp] theorem stopCount_nil : stopCount [] = 0 := rfl

@[simp] theorem runOnlyCount_nil : runOnlyCount [] = 0 := rfl

@[simp] theorem startCount_cons_msa (sa : Nat) (rs : Bool) (l : List Obs) :
    startCount (Obs.msa sa rs :: l) = startCount l := rfl

@[simp] theorem stopCount_cons_msa (sa : Nat) (rs : Bool) (l : List Obs) :
    stopCount (Obs.msa sa rs :: l) = stopCount l := rfl

@[simp] theorem runOnlyCount_cons_msa (sa : Nat) (rs : Bool) (l : List Obs) :
    runOnlyCount (Obs.msa sa rs :: l) = runOnlyCount l := rfl

theorem startCount_opObs (addr : Nat) (start : Bool) (op : Operation)
    (nxt : Option Operation) (h : 0 < op.len) :
    startCount (opObs addr start op nxt) = if start then 1 else 0 := by
  cases op with
  | write bytes =>
      cases bytes with
      | nil => simp at h
      | cons b bs =>
          cases start <;>
            simp [opObs, startCount_append, startCount_writeRun]
  | read n =>
      cases n with
      | zero => simp at h
      | succ m =>
          cases start <;>
            simp [opObs, startCount_append, startCount_readRun]

theorem stopCount_opObs (addr : Nat) (start : Bool) (op : Operation)
    (nxt : Option Operation) (h : 0 < op.len) :
    stopCount (opObs addr start op nxt) = if nxt.isNone then 1 else 0 := by
  cases op with
  | write bytes =>
      cases bytes with
      | nil => simp at h
      | cons b bs =>
          cases start <;>
            simp [opObs, stopCount_append, stopCount_writeRun]
  | read n =>
      cases n with
      | zero => simp at h
      | succ m =>
          cases start <;>
            simp [opObs, stopCount_append, stopCount_readRun]

theorem msaList_opObs (addr : Nat) (start : Bool) (op : Operation) (nxt : Option Operation) :
    msaList (opObs addr start op nxt) = if start then [(addr, op.isRead)] else [] := by
  cases op <;> cases start <;>
    simp [opObs, msaList_append, msaList_writeRun, msaList_readRun]

theorem mdrList_opObs_write (addr : Nat) (start : Bool) (bytes : List Nat)
    (nxt : Option Operation) :
    mdrList (opObs addr start (Operation.write bytes) nxt) = bytes := by
  cases start <;> simp [opObs, mdrList_append, mdrList_writeRun]

theorem mdrList_opObs_read (addr : Nat) (start : Bool) (n : Nat) (nxt : Option Operation) :
    mdrList (opObs addr start (Operation.read n) nxt) = [] := by
  cases start <;> simp [opObs, mdrList_append, mdrList_readRun]

theorem startCount_skelOps (addr : Nat) : ∀ (ops : List Operation) (start : Bool),
    (∀ op ∈ ops, 0 < op.len) →
    startCount (skelOps addr start ops) = (runDirsFrom start ops).length
  | [], start, _ => by cases start <;> rfl
  | op :: rest, start, hlen => by
      have ih := startCount_skelOps addr rest (nextStart op rest)
        (fun o ho => hlen o (List.mem_cons_of_mem _ ho))
      have hop := startCount_opObs addr start op rest.head?
        (hlen op (List.mem_cons_self _ _))
      rw [skelOps_cons, startCount_append, hop, ih]
      cases start <;> simp [runDirsFrom] <;> omega

theorem msaList_skelOps (addr : Nat) : ∀ (ops : List Operation) (start : Bool),
    msaList (skelOps addr start ops) = (runDirsFrom start ops).map fun d => (addr, d)
  | [], start => by cases start <;> rfl
  | op :: rest, start => by
      have ih := msaList_skelOps addr rest (nextStart op rest)
      rw [skelOps_cons, msaList_append, msaList_opObs, ih]
      cases start <;> simp [runDirsFrom]

theorem stopCount_skelOps (addr : Nat) : ∀ (ops : List Operation) (start : Bool),
    ops ≠ [] → (∀ op ∈ ops, 0 < op.len) →
    stopCount (skelOps addr start ops) = 1
  | [], _, hne, _ => absurd rfl hne
  | [op], start, _, hlen => by
      have hop := stopCount_opObs addr start op none (hlen op (List.mem_cons_self _ _))
      rw [skelOps_cons]
      simp only [List.head?_nil] at hop ⊢
      rw [stopCount_append, hop]
      rfl
  | op :: op2 :: rest, start, _, hlen => by
      have ih := stopCount_skelOps addr (op2 :: rest) (nextStart op (op2 :: rest))
        (by simp) (fun o ho => hlen o (List.mem_cons_of_mem _ ho))
      have hop := stopCount_opObs addr start op (op2 :: rest).head?
        (hlen op (List.mem_cons_self _ _))
      rw [skelOps_cons, stopCount_append, hop, ih]
      rfl

theorem getLast?_cons_ne {α : Type} (x : α) (l : List α) (h : l ≠ []) :
    (x :: l).getLast? = l.getLast? := by
  cases l with
  | nil => exact absurd rfl h
  | cons y tl => simp [List.getLast?_cons_cons]

theorem cmdList_writeRun_ne : ∀ (s st : Bool) (b : Nat) (bs : List Nat),
    cmdList (writeRun s st (b :: bs)) ≠ []
  | s, st, b, [] => by simp [writeRun]
  | s, st, b, b2 :: bs => by simp [writeRun]

theorem cmdList_readRun_ne : ∀ (s nk st : Bool) (n : Nat),
    cmdList (readRun s nk st (n + 1)) ≠ []
  | s, nk, st, 0 => by simp [readRun]
  | s, nk, st, n + 1 => by simp [readRun]

theorem last_cmd_writeRun : ∀ (s st : Bool) (b : Nat) (bs : List Nat),
    ∃ c, (cmdList (writeRun s st (b :: bs))).getLast? = some c ∧ c.2.2.1 = st
  | s, st, b, [] => ⟨(s, true, st, false), by simp [writeRun], rfl⟩
  | s, st, b, b2 :: bs => by
      obtain ⟨c, hc, hst⟩ := last_cmd_writeRun false st b2 bs
      refine ⟨c, ?_, hst⟩
      rw [show cmdList (writeRun s st (b :: b2 :: bs)) =
        (s, true, false, false) :: cmdList (writeRun false st (b2 :: bs)) by simp [writeRun]]
      rw [getLast?_cons_ne _ _ (cmdList_writeRun_ne false st b2 bs), hc]

theorem last_cmd_readRun : ∀ (s nk st : Bool) (n : Nat),
    ∃ c, (cmdList (readRun s nk st (n + 1))).getLast? = some c ∧ c.2.2.1 = st
  | s, nk, st, 0 => ⟨(s, true, st, !(nk || st)), by simp [readRun], rfl⟩
  | s, nk, st, n + 1 => by
      obtain ⟨c, hc, hst⟩ := last_cmd_readRun false nk st n
      refine ⟨c, ?_, hst⟩
      rw [show cmdList (readRun s nk st (n + 1 + 1)) =
        (s, true, false, true) :: cmdList (readRun false nk st (n + 1)) by simp [readRun]]
      rw [getLast?_cons_ne _ _ (cmdList_readRun_ne false nk st n), hc]

theorem cmdList_opObs_msa_elim (addr : Nat) (start : Bool) (op : Operation)
    (nxt : Option Operation) :
    cmdList (opObs addr start op nxt) =
      cmdList (match op with
        | Operation.write bytes => writeRun start nxt.isNone bytes
        | Operation.read n =>
            readRun start (match nxt with | some op2 => !op2.isRead | none => false)
              nxt.isNone n) := by
  cases op <;> cases start <;> simp [opObs, cmdList_append]

theorem cmdList_opObs_ne (addr : Nat) (start : Bool) (op : Operation)
    (nxt : Option Operation) (h : 0 < op.len) :
    cmdList (opObs addr start op nxt) ≠ [] := by
  rw [cmdList_opObs_msa_elim]
  cases op with
  | write bytes =>
      cases bytes with
      | nil => simp at h
      | cons b bs => exact cmdList_writeRun_ne _ _ _ _
  | read n =>
      cases n with
      | zero => simp at h
      | succ m => exact cmdList_readRun_ne _ _ _ _

theorem last_cmd_opObs (addr : Nat) (start : Bool) (op : Operation)
    (nxt : Option Operation) (h : 0 < op.len) :
    ∃ c, (cmdList (opObs addr start op nxt)).getLast? = some c ∧ c.2.2.1 = nxt.isNone := by
  rw [cmdList_opObs_msa_elim]
  cases op with
  | write bytes =>
      cases bytes with
      | nil => simp at h
      | cons b bs => exact last_cmd_writeRun _ _ _ _
  | read n =>
      cases n with
      | zero => simp at h
      | succ m => exact last_cmd_readRun _ _ _ _

theorem cmdList_skelOps_ne (addr : Nat) : ∀ (ops : List Operation) (start : Bool),
    ops ≠ [] → (∀ op ∈ ops, 0 < op.len) →
    cmdList (skelOps addr start ops) ≠ []
  | [], _, hne, _ => absurd rfl hne
  | op :: rest, start, _, hlen => by
      rw [skelOps_cons, cmdList_append]
      intro hcontra
      exact cmdList_opObs_ne addr start op rest.head? (hlen op (List.mem_cons_self _ _))
        (List.append_eq_nil.mp hcontra).1

theorem last_cmd_skelOps (addr : Nat) : ∀ (ops : List Operation) (start : Bool),
    ops ≠ [] → (∀ op ∈ ops, 0 < op.len) →
    ∃ c, (cmdList (skelOps addr start ops)).getLast? = some c ∧ c.2.2.1 = true
  | [], _, hne, _ => absurd rfl hne
  | [op], start, _, hlen => by
      rw [skelOps_cons, cmdList_append]
      obtain ⟨c, hc, hst⟩ := last_cmd_opObs addr start op [].head?
        (hlen op (List.mem_cons_self _ _))
      refine ⟨c, ?_, by simpa using hst⟩
      simp only [skelOps, cmdList_nil, List.append_nil]
      exact hc
  | op :: op2 :: rest, start, _, hlen => by
      obtain ⟨c, hc, hst⟩ := last_cmd_skelOps addr (op2 :: rest)
        (nextStart op (op2 :: rest)) (by simp)
        (fun o ho => hlen o (List.mem_cons_of_mem _ ho))
      refine ⟨c, ?_, hst⟩
      rw [skelOps_cons, cmdList_append, List.getLast?_append, hc]
      rfl

theorem head_cmd_writeRun (s st : Bool) (b : Nat) (bs : List Nat) :
    ∃ c, (cmdList (writeRun s st (b :: bs))).head? = some c ∧ c.1 = s := by
  cases bs with
  | nil => exact ⟨(s, true, st, false), by simp [writeRun], rfl⟩
  | cons b2 bs2 => exact ⟨(s, true, false, false), by simp [writeRun], rfl⟩

theorem head_cmd_readRun (s nk st : Bool) (n : Nat) :
    ∃ c, (cmdList (readRun s nk st (n + 1))).head? = some c ∧ c.1 = s := by
  cases n with
  | zero => exact ⟨(s, true, st, !(nk || st)), by simp [readRun], rfl⟩
  | succ m => exact ⟨(s, true, false, true), by simp [readRun], rfl⟩

theorem head_cmd_opObs (addr : Nat) (start : Bool) (op : Operation)
    (nxt : Option Operation) (h : 0 < op.len) :
    ∃ c, (cmdList (opObs addr start op nxt)).head? = some c ∧ c.1 = start := by
  rw [cmdList_opObs_msa_elim]
  cases op with
  | write bytes =>
      cases bytes with
      | nil => simp at h
      | cons b bs => exact head_cmd_writeRun _ _ _ _
  | read n =>
      cases n with
      | zero => simp at h
      | succ m => exact head_cmd_readRun _ _ _ _

theorem head_cmd_skelOps (addr : Nat) (op : Operation) (rest : List Operation)
    (start : Bool) (hlen : ∀ o ∈ op :: rest, 0 < o.len) :
    ∃ c, (cmdList (skelOps addr start (op :: rest))).head? = some c ∧ c.1 = start := by
  obtain ⟨c, hc, hs⟩ := head_cmd_opObs addr start op rest.head?
    (hlen op (List.mem_cons_self _ _))
  refine ⟨c, ?_, hs⟩
  rw [skelOps_cons, cmdList_append,
    List.head?_append_of_ne_nil _
      (cmdList_opObs_ne addr start op rest.head? (hlen op (List.mem_cons_self _ _))),
    hc]

@[simp] theorem readAcks_nil : readAcks [] = [] := rfl

@[simp] theorem readAcks_cons_msa (sa : Nat) (rs : Bool) (l : List Obs) :
    readAcks (Obs.msa sa rs :: l) = readAcks l := rfl

@[simp] theorem readAcks_cons_mdr (d : Nat) (l : List Obs) :
    readAcks (Obs.mdr d :: l) = readAcks l := rfl

@[simp] theorem readAcks_cons_rd (l : List Obs) :
    readAcks (Obs.rd :: l) = readAcks l := rfl

@[simp] theorem readAcks_cmd_rd (s r st a : Bool) (l : List Obs) :
    readAcks (Obs.cmd s r st a :: Obs.rd :: l) = a :: readAcks l := rfl

@[simp] theorem readAcks_cmd_msa (s r st a : Bool) (sa : Nat) (rs : Bool) (l : List Obs) :
    readAcks (Obs.cmd s r st a :: Obs.msa sa rs :: l) = readAcks l := rfl

@[simp] theorem readAcks_cmd_mdr (s r st a : Bool) (d : Nat) (l : List Obs) :
    readAcks (Obs.cmd s r st a :: Obs.mdr d :: l) = readAcks l := rfl

@[simp] theorem readAcks_cmd_cmd (s r st a s2 r2 st2 a2 : Bool) (l : List Obs) :
    readAcks (Obs.cmd s r st a :: Obs.cmd s2 r2 st2 a2 :: l) =
      readAcks (Obs.cmd s2 r2 st2 a2 :: l) := rfl

@[simp] theorem readAcks_cmd_nil (s r st a : Bool) :
    readAcks [Obs.cmd s r st a] = [] := rfl

theorem readAcks_append : ∀ (A B : List Obs), B.head? ≠ some Obs.rd →
    readAcks (A ++ B) = readAcks A ++ readAcks B
  | [], B, _ => by simp
  | Obs.msa sa rs :: A2, B, hB => by
      simpa using readAcks_append A2 B hB
  | Obs.mdr d :: A2, B, hB => by
      simpa using readAcks_append A2 B hB
  | Obs.rd :: A2, B, hB => by
      simpa using readAcks_append A2 B hB
  | Obs.cmd s r st a :: A2, B, hB => by
      cases A2 with
      | nil =>
          cases B with
          | nil => simp
          | cons x B2 =>
              cases x with
              | rd => exact absurd rfl hB
              | msa sa2 rs2 => simp
              | mdr d2 => simp
              | cmd s2 r2 st2 a2 => simp
      | cons y A3 =>
          cases y with
          | rd => simpa using readAcks_append A3 B hB
          | msa sa2 rs2 => simpa using readAcks_append (Obs.msa sa2 rs2 :: A3) B hB
          | mdr d2 => simpa using readAcks_append (Obs.mdr d2 :: A3) B hB
          | cmd s2 r2 st2 a2 =>
              simpa using readAcks_append (Obs.cmd s2 r2 st2 a2 :: A3) B hB

theorem readAcks_writeRun : ∀ (s st : Bool) (bs : List Nat), readAcks (writeRun s st bs) = []
  | _, _, [] => rfl
  | _, _, [_] => rfl
  | s, st, b :: b2 :: bs => by
      have ih := readAcks_writeRun false st (b2 :: bs)
      cases bs with
      | nil => simpa [writeRun] using ih
      | cons b3 bs3 => simpa [writeRun] using ih

theorem readAcks_readRun : ∀ (s nk st : Bool) (n : Nat),
    readAcks (readRun s nk st n) = readAckSpecOp (nk || st) n
  | _, _, _, 0 => rfl
  | _, _, _, 1 => rfl
  | s, nk, st, n + 2 => by
      have ih := readAcks_readRun false nk st (n + 1)
      simpa [readRun, readAckSpecOp] using ih

theorem readAcks_opObs (addr : Nat) (start : Bool) (op : Operation) (nxt : Option Operation) :
    readAcks (opObs addr start op nxt) = opAckSpec op nxt := by
  cases op with
  | write bytes => cases start <;> simp [opObs, opAckSpec, readAcks_writeRun]
  | read n =>
      cases start <;> cases nxt <;> simp [opObs, opAckSpec, readAcks_readRun]

theorem opObs_head_ne_rd (addr : Nat) (start : Bool) (op : Operation)
    (nxt : Option Operation) (h : 0 < op.len) :
    ∃ x, (opObs addr start op nxt).head? = some x ∧ x ≠ Obs.rd := by
  cases op with
  | write bytes =>
      cases bytes with
      | nil => simp at h
      | cons b bs =>
          cases start with
          | false =>
              cases bs with
              | nil => exact ⟨Obs.mdr b, by simp [opObs, writeRun], by simp⟩
              | cons b2 bs2 => exact ⟨Obs.mdr b, by simp [opObs, writeRun], by simp⟩
          | true => exact ⟨Obs.msa addr false, by simp [opObs], by simp⟩
  | read n =>
      cases n with
      | zero => simp at h
      | succ m =>
          cases start with
          | false =>
              cases m with
              | zero =>
                  refine ⟨Obs.cmd false true nxt.isNone
                    (!((match nxt with
                        | some op2 => !op2.isRead
                        | none => false) || nxt.isNone)), ?_, by simp⟩
                  simp [opObs, readRun]
              | succ m2 =>
                  exact ⟨Obs.cmd false true false true, by simp [opObs, readRun], by simp⟩
          | true => exact ⟨Obs.msa addr true, by simp [opObs], by simp⟩

theorem skelOps_head_ne_rd (addr : Nat) : ∀ (ops : List Operation) (start : Bool),
    (∀ op ∈ ops, 0 < op.len) → (skelOps addr start ops).head? ≠ some Obs.rd
  | [], start, _ => by cases start <;> simp [skelOps]
  | op :: rest, start, hlen => by
      obtain ⟨x, hx, hxne⟩ := opObs_head_ne_rd addr start op rest.head?
        (hlen op (List.mem_cons_self _ _))
      rw [skelOps_cons]
      have hne : opObs addr start op rest.head? ≠ [] := by
        intro hc
        rw [hc] at hx
        simp at hx
      rw [List.head?_append_of_ne_nil _ hne, hx]
      simpa using hxne

theorem readAcks_skelOps (addr : Nat) : ∀ (ops : List Operation) (start : Bool),
    (∀ op ∈ ops, 0 < op.len) →
    readAcks (skelOps addr start ops) = ackSpec ops
  | [], start, _ => by cases start <;> rfl
  | op :: rest, start, hlen => by
      have ih := readAcks_skelOps addr rest (nextStart op rest)
        (fun o ho => hlen o (List.mem_cons_of_mem _ ho))
      rw [skelOps_cons, readAcks_append _ _ (skelOps_head_ne_rd addr rest
        (nextStart op rest) (fun o ho => hlen o (List.mem_cons_of_mem _ ho))),
        readAcks_opObs, ih]
      rfl

theorem runDirsFrom_write_false : ∀ (bufs : List (List Nat)),
    runDirsFrom false (bufs.map Operation.write) = []
  | [] => rfl
  | buf :: rest => by
      have ih := runDirsFrom_write_false rest
      cases rest <;> simp_all [runDirsFrom, nextStart]

theorem runDirs_write (bufs : List (List Nat)) (h : bufs ≠ []) :
    runDirs (bufs.map Operation.write) = [false] := by
  cases bufs with
  | nil => exact absurd rfl h
  | cons buf rest =>
      have h2 := runDirsFrom_write_false rest
      cases rest <;> simp_all [runDirs, runDirsFrom, nextStart]

theorem mdrList_skelOps_write (addr : Nat) : ∀ (bufs : List (List Nat)) (start : Bool),
    mdrList (skelOps addr start (bufs.map Operation.write)) = bufs.flatten
  | [], start => by cases start <;> rfl
  | buf :: rest, start => by
      have ih := mdrList_skelOps_write addr rest
        (nextStart (Operation.write buf) (rest.map Operation.write))
      rw [List.map_cons, skelOps_cons, mdrList_append, mdrList_opObs_write, ih]
      simp

theorem runOnlyCount_opObs_write (addr : Nat) (start : Bool) (b : Nat) (bs : List Nat)
    (nxt : Option Operation) :
    runOnlyCount (opObs addr start (Operation.write (b :: bs)) nxt) =
      (bs.length + 1) - (if start then 1 else 0) - (if nxt.isNone then 1 else 0) := by
  cases start <;> simp [opObs, runOnlyCount_writeRun]

theorem runOnlyCount_skelOps_write (addr : Nat) : ∀ (bufs : List (List Nat)) (start : Bool),
    bufs ≠ [] → (∀ b ∈ bufs, b ≠ []) →
    runOnlyCount (skelOps addr start (bufs.map Operation.write)) =
      (bufs.map List.length).sum - (if start then 1 else 0) - 1
  | [], _, hne, _ => absurd rfl hne
  | [buf], start, _, hlen => by
      obtain ⟨b, bs, rfl⟩ : ∃ b bs, buf = b :: bs := by
        cases buf with
        | nil => exact absurd rfl (hlen [] (by simp))
        | cons b bs => exact ⟨b, bs, rfl⟩
      rw [List.map_cons, List.map_nil, skelOps_cons, runOnlyCount_append,
        runOnlyCount_opObs_write]
      simp only [skelOps, runOnlyCount_nil, List.head?_nil, Option.isNone_none,
        List.map_cons, List.map_nil, List.sum_cons, List.sum_nil, List.length_cons]
      cases start <;> simp <;> omega
  | buf :: buf2 :: rest, start, _, hlen => by
      obtain ⟨b, bs, rfl⟩ : ∃ b bs, buf = b :: bs := by
        cases buf with
        | nil => exact absurd rfl (hlen [] (by simp))
        | cons b bs => exact ⟨b, bs, rfl⟩
      have ih := runOnlyCount_skelOps_write addr (buf2 :: rest)
        (nextStart (Operation.write (b :: bs)) ((buf2 :: rest).map Operation.write))
        (by simp) (fun o ho => hlen o (List.mem_cons_of_mem _ ho))
      have hb2 : 0 < buf2.length := List.length_pos.mpr (hlen buf2 (by simp))
      have hns : nextStart (Operation.write (b :: bs))
          ((buf2 :: rest).map Operation.write) = false := by
        simp [nextStart]
      rw [List.map_cons, skelOps_cons, runOnlyCount_append, runOnlyCount_opObs_write, ih]
      rw [hns] at ih ⊢
      have hsum : 0 < ((buf2 :: rest).map List.length).sum := by
        simp only [List.map_cons, List.sum_cons]
        omega
      simp only [List.map_cons, List.sum_cons, List.length_cons, List.head?_cons,
        Option.isNone_some]
      cases start <;> simp <;> omega

theorem classifyStop_mem_of_nack (s : BusStatus) (src : NoAcknowledgeSource)
    (h : classify s = some (ErrorKind.noAcknowledge src)) :
    Event.writeMCS false false true false ∈ classifyStopEvents s := by
  rw [classifyStopEvents_of_nack s src h]
  simp

theorem busyWaitPlain_nack_stop (sts : List BusStatus) (src : NoAcknowledgeSource)
    (h : (busyWaitPlain sts).2.2 = WaitRes.err (ErrorKind.noAcknowledge src)) :
    Event.writeMCS false false true false ∈ (busyWaitPlain sts).1 := by
  cases sts with
  | nil => simp [busyWaitPlain] at h
  | cons s rest =>
      cases hc : classify s with
      | none => simp [busyWaitPlain, hc] at h
      | some e =>
          have he : e = ErrorKind.noAcknowledge src := by
            simpa [busyWaitPlain, hc] using h
          subst he
          simp [busyWaitPlain, hc, classifyStopEvents_of_nack s src hc]

theorem busbsyLoop_nack_stop (src : NoAcknowledgeSource) : ∀ (sts : List BusStatus),
    (busbsyLoop sts).2.2 = WaitRes.err (ErrorKind.noAcknowledge src) →
    Event.writeMCS false false true false ∈ (busbsyLoop sts).1
  | [], h => by simp [busbsyLoop] at h
  | s :: rest, h => by
      cases hc : classify s with
      | some e =>
          have he : e = ErrorKind.noAcknowledge src := by
            simpa [busbsyLoop, hc] using h
          subst he
          simp [busbsyLoop, hc, classifyStopEvents_of_nack s src hc]
      | none =>
          by_cases hb : s.busbsy
          · simp only [busbsyLoop, hc, hb, if_true] at h ⊢
            exact List.mem_cons_of_mem _ (busbsyLoop_nack_stop src rest h)
          · simp [busbsyLoop, hc, hb] at h

theorem busyWaitBusbsy_nack_stop (sts : List BusStatus) (src : NoAcknowledgeSource)
    (h : (busyWaitBusbsy sts).2.2 = WaitRes.err (ErrorKind.noAcknowledge src)) :
    Event.writeMCS false false true false ∈ (busyWaitBusbsy sts).1 := by
  cases sts with
  | nil => simp [busyWaitBusbsy] at h
  | cons s rest =>
      cases hc : classify s with
      | some e =>
          have he : e = ErrorKind.noAcknowledge src := by
            simpa [busyWaitBusbsy, hc] using h
          subst he
          simp [busyWaitBusbsy, hc, classifyStopEvents_of_nack s src hc]
      | none =>
          by_cases hb : s.busbsy
          · simp only [busyWaitBusbsy, hc, hb, if_true] at h ⊢
            exact List.mem_append_right _ (busbsyLoop_nack_stop src rest h)
          · simp [busyWaitBusbsy, hc, hb] at h

/-- Claim C1 (amended): in every execution of `transaction` on a non-empty,
all-non-zero-length operation sequence that returns success, the START bit
is asserted exactly once per maximal run of consecutive same-direction
operations, the address register is rewritten exactly once per such run with
the run's direction bit, the STOP bit is asserted by exactly one command,
that command is the final one (so no STOP is ever issued between two
operations at a direction change), and the first command asserts START.
The original claim further asserted exactly one STOP in every aborted
execution; that guarantee is dropped: the counterexample is an aborted
execution containing no STOP command at all. -/
theorem claim_C1 (addr : Nat) (ops : List Operation) (sts : List BusStatus)
    (rdata : List Nat) (tr : List Event)
    (hne : ops ≠ []) (hlen : ∀ op ∈ ops, 0 < op.len)
    (h : transaction addr ops sts rdata = (tr, TOutcome.ok)) :
    startCount (obsOf tr) = (runDirs ops).length ∧
    msaList (obsOf tr) = (runDirs ops).map (fun d => (addr, d)) ∧
    stopCount (obsOf tr) = 1 ∧
    (∃ c, (cmdList (obsOf tr)).getLast? = some c ∧ c.2.2.1 = true) ∧
    (∃ c, (cmdList (obsOf tr)).head? = some c ∧ c.1 = true) := by
  rw [transaction_obs addr ops sts rdata tr hne hlen h]
  refine ⟨startCount_skelOps addr ops true hlen, msaList_skelOps addr ops true,
    stopCount_skelOps addr ops true hne hlen, last_cmd_skelOps addr ops true hne hlen, ?_⟩
  cases ops with
  | nil => exact absurd rfl hne
  | cons op rest => exact head_cmd_skelOps addr op rest true hlen

/-- Witness for claim C1 on a concrete write-then-read transaction. -/
theorem claim_C1_witness :
    startCount (obsOf (transaction 80 [Operation.write [1], Operation.read 2]
        (List.replicate 5 okStatus) [7, 8]).1) =
      (runDirs [Operation.write [1], Operation.read 2]).length ∧
    msaList (obsOf (transaction 80 [Operation.write [1], Operation.read 2]
        (List.replicate 5 okStatus) [7, 8]).1) =
      (runDirs [Operation.write [1], Operation.read 2]).map (fun d => (80, d)) ∧
    stopCount (obsOf (transaction 80 [Operation.write [1], Operation.read 2]
        (List.replicate 5 okStatus) [7, 8]).1) = 1 ∧
    (∃ c, (cmdList (obsOf (transaction 80 [Operation.write [1], Operation.read 2]
        (List.replicate 5 okStatus) [7, 8]).1)).getLast? = some c ∧ c.2.2.1 = true) ∧
    (∃ c, (cmdList (obsOf (transaction 80 [Operation.write [1], Operation.read 2]
        (List.replicate 5 okStatus) [7, 8]).1)).head? = some c ∧ c.1 = true) :=
  claim_C1 80 [Operation.write [1], Operation.read 2] (List.replicate 5 okStatus)
    [7, 8] _ (by decide) (by decide) (pair_eta_ok (by decide))

/-- Counterexample to claim C1 as stated: an execution aborted by an
arbitration-loss classification returns the error without any command
asserting STOP, so STOP is not asserted exactly once in every execution. -/
theorem claim_C1_cex :
    (transaction 80 [Operation.write [171]] [arbStatus] []).2 =
      TOutcome.err ErrorKind.arbitrationLoss ∧
    stopCount (obsOf (transaction 80 [Operation.write [171]] [arbStatus] []).1) = 0 := by
  decide

/-- Claim C2 (amended): in every successful execution of `transaction` on a
non-empty, all-non-zero-length operation sequence, the commands that clock
in received bytes assert ACK on every byte of every Read operation except
(a) the transaction's globally final byte and (b) the last byte of a Read
operation whose immediately following operation is a Write (direction
change), where ACK is suppressed.  The original claim allowed ACK
suppression only on the globally final byte; the counterexample shows the
engine also suppresses ACK at a read-to-write boundary. -/
theorem claim_C2 (addr : Nat) (ops : List Operation) (sts : List BusStatus)
    (rdata : List Nat) (tr : List Event)
    (hne : ops ≠ []) (hlen : ∀ op ∈ ops, 0 < op.len)
    (h : transaction addr ops sts rdata = (tr, TOutcome.ok)) :
    readAcks (obsOf tr) = ackSpec ops := by
  rw [transaction_obs addr ops sts rdata tr hne hlen h]
  exact readAcks_skelOps addr ops true hlen

/-- Witness for claim C2 on a concrete two-byte read followed by a write. -/
theorem claim_C2_witness :
    readAcks (obsOf (transaction 80 [Operation.read 2, Operation.write [7]]
        (List.replicate 4 okStatus) [7, 8]).1) =
      ackSpec [Operation.read 2, Operation.write [7]] :=
  claim_C2 80 [Operation.read 2, Operation.write [7]] (List.replicate 4 okStatus)
    [7, 8] _ (by decide) (by decide) (pair_eta_ok (by decide))

/-- Counterexample to claim C2 as stated: in the successful transaction
Read(1) then Write([5]), the single received byte is not the transaction's
globally final byte (the write's byte is), yet its clocking command
suppresses ACK. -/
theorem claim_C2_cex :
    (transaction 80 [Operation.read 1, Operation.write [5]]
        (List.replicate 3 okStatus) [10]).2 = TOutcome.ok ∧
    obsOf (transaction 80 [Operation.read 1, Operation.write [5]]
        (List.replicate 3 okStatus) [10]).1 =
      [Obs.msa 80 true, Obs.cmd true true false false, Obs.rd,
        Obs.msa 80 false, Obs.mdr 5, Obs.cmd true true true false] ∧
    readAcks (obsOf (transaction 80 [Operation.read 1, Operation.write [5]]
        (List.replicate 3 okStatus) [10]).1) = [false] := by
  decide

/-- Claim C3 (amended): the classification after every busy-wait follows the
fixed priority clock-timeout, then (error AND arbitration-lost), then
(error AND address-NACK), then data-NACK for any remaining error, then no
error.  Exactly one outcome is produced for every snapshot.  An Address
NoAcknowledge requires the error flag and `adrack`; a Data NoAcknowledge is
produced whenever the error flag is set with `arblst` and `adrack` clear —
the `datack` sub-flag is never consulted (its test is commented out in the
source).  Consequently a snapshot with the error flag set and no sub-flags
classifies as NoAcknowledge(Data), not as no error, and `arblst` without
the error flag classifies as no error. -/
theorem claim_C3 (s : BusStatus) :
    (classify s = some ErrorKind.other ↔ s.clkto = true) ∧
    (classify s = some ErrorKind.arbitrationLoss ↔
      s.clkto = false ∧ s.error = true ∧ s.arblst = true) ∧
    (classify s = some (ErrorKind.noAcknowledge NoAcknowledgeSource.address) ↔
      s.clkto = false ∧ s.error = true ∧ s.arblst = false ∧ s.adrack = true) ∧
    (classify s = some (ErrorKind.noAcknowledge NoAcknowledgeSource.data) ↔
      s.clkto = false ∧ s.error = true ∧ s.arblst = false ∧ s.adrack = false) ∧
    (classify s = none ↔ s.clkto = false ∧ s.error = false) := by
  obtain ⟨b1, b2, b3, b4, b5, b6⟩ := s
  revert b1 b2 b3 b4 b5 b6
  decide

/-- Witness for claim C3: a snapshot with only the error flag and `datack`
set classifies as a data NACK. -/
theorem claim_C3_witness :
    classify ⟨false, true, false, false, true, false⟩ =
      some (ErrorKind.noAcknowledge NoAcknowledgeSource.data) :=
  ((claim_C3 _).2.2.2.1).mpr (by decide)

/-- Counterexample to claim C3 as stated: a snapshot with the error flag set
but neither `arblst`, `adrack` nor `datack` set does not classify as no
error (it classifies as NoAcknowledge(Data)). -/
theorem claim_C3_cex :
    classify ⟨false, true, false, false, false, false⟩ ≠ none := by
  decide

/-- Claim C4: whenever a busy-wait (either form of `i2c_busy_wait!`)
classifies a NoAcknowledge outcome, a command-register write asserting the
STOP bit is among the register accesses it performs before returning the
error to the caller. -/
theorem claim_C4 (sts : List BusStatus) (src : NoAcknowledgeSource) :
    ((busyWaitPlain sts).2.2 = WaitRes.err (ErrorKind.noAcknowledge src) →
      Event.writeMCS false false true false ∈ (busyWaitPlain sts).1) ∧
    ((busyWaitBusbsy sts).2.2 = WaitRes.err (ErrorKind.noAcknowledge src) →
      Event.writeMCS false false true false ∈ (busyWaitBusbsy sts).1) :=
  ⟨busyWaitPlain_nack_stop sts src, busyWaitBusbsy_nack_stop sts src⟩

/-- Witness for claim C4 at a concrete address-NACK snapshot. -/
theorem claim_C4_witness :
    Event.writeMCS false false true false ∈ (busyWaitPlain [adrNackStatus]).1 :=
  (claim_C4 [adrNackStatus] NoAcknowledgeSource.address).1 (by decide)

/-- Claim C5 (amended): for every all-Write transaction (non-empty list of
non-empty buffers) that returns success, the data-register writes equal the
concatenation of the buffers in order, exactly one command asserts START,
exactly one asserts STOP, and the number of RUN-only commands (RUN with
neither START nor STOP) is total_bytes - 2 (which is 0 for the one-shot
single-byte case).  The original claim said total_bytes - 1; the
counterexample shows a two-byte write has 0 RUN-only commands, not 1. -/
theorem claim_C5 (addr : Nat) (bufs : List (List Nat)) (sts : List BusStatus)
    (rdata : List Nat) (tr : List Event)
    (hne : bufs ≠ []) (hlen : ∀ b ∈ bufs, b ≠ [])
    (h : transaction addr (bufs.map Operation.write) sts rdata = (tr, TOutcome.ok)) :
    mdrList (obsOf tr) = bufs.flatten ∧
    startCount (obsOf tr) = 1 ∧
    stopCount (obsOf tr) = 1 ∧
    runOnlyCount (obsOf tr) = (bufs.map List.length).sum - 2 := by
  have hne2 : bufs.map Operation.write ≠ [] := by simpa using hne
  have hlen2 : ∀ op ∈ bufs.map Operation.write, 0 < op.len := by
    intro op hop
    rw [List.mem_map] at hop
    obtain ⟨b, hb, rfl⟩ := hop
    simpa using List.length_pos.mpr (hlen b hb)
  rw [transaction_obs addr _ sts rdata tr hne2 hlen2 h]
  refine ⟨mdrList_skelOps_write addr bufs true, ?_,
    stopCount_skelOps addr _ true hne2 hlen2, ?_⟩
  · rw [startCount_skelOps addr _ true hlen2,
      show runDirsFrom true (bufs.map Operation.write) = [false] from runDirs_write bufs hne]
    rfl
  · rw [runOnlyCount_skelOps_write addr bufs true hne hlen]
    simp only [if_true]
    omega

/-- Witness for claim C5 on a concrete two-buffer write transaction. -/
theorem claim_C5_witness :
    mdrList (obsOf (transaction 80 [Operation.write [1], Operation.write [2, 3]]
        (List.replicate 4 okStatus) []).1) = [[1], [2, 3]].flatten ∧
    startCount (obsOf (transaction 80 [Operation.write [1], Operation.write [2, 3]]
        (List.replicate 4 okStatus) []).1) = 1 ∧
    stopCount (obsOf (transaction 80 [Operation.write [1], Operation.write [2, 3]]
        (List.replicate 4 okStatus) []).1) = 1 ∧
    runOnlyCount (obsOf (transaction 80 [Operation.write [1], Operation.write [2, 3]]
        (List.replicate 4 okStatus) []).1) = ([[1], [2, 3]].map List.length).sum - 2 :=
  claim_C5 80 [[1], [2, 3]] (List.replicate 4 okStatus) [] _
    (by decide) (by decide) (pair_eta_ok (by decide))

/-- Counterexample to claim C5 as stated: the successful two-byte write
transaction Write([1,2]) issues 0 RUN-only commands, not
total_bytes - 1 = 1. -/
theorem claim_C5_cex :
    (transaction 80 [Operation.write [1, 2]] (List.replicate 3 okStatus) []).2 =
      TOutcome.ok ∧
    runOnlyCount (obsOf (transaction 80 [Operation.write [1, 2]]
        (List.replicate 3 okStatus) []).1) = 0 ∧
    sumLen [Operation.write [1, 2]] - 1 = 1 := by
  decide

/-- Claim C6: a transaction of exactly one operation of exactly one byte is
issued as a single command asserting START, RUN and STOP together (data
register preloaded for a write, ACK suppressed for a read), and its
register-level observables are identical to what the general path
prescribes for a one-byte final operation with a pending START
(`opObs addr true op none`, read off the final-operation handler of the
source's loop). -/
theorem claim_C6 (addr b : Nat) :
    (∀ sts rdata tr,
        transaction addr [Operation.write [b]] sts rdata = (tr, TOutcome.ok) →
        obsOf tr = [Obs.msa addr false, Obs.mdr b, Obs.cmd true true true false] ∧
        obsOf tr = opObs addr true (Operation.write [b]) none ∧
        cmdList (obsOf tr) = [(true, true, true, false)]) ∧
    (∀ sts rdata tr,
        transaction addr [Operation.read 1] sts rdata = (tr, TOutcome.ok) →
        obsOf tr = [Obs.msa addr true, Obs.cmd true true true false, Obs.rd] ∧
        obsOf tr = opObs addr true (Operation.read 1) none ∧
        cmdList (obsOf tr) = [(true, true, true, false)]) := by
  constructor
  · intro sts rdata tr h
    rw [transaction_obs addr _ sts rdata tr (by simp) (by simp) h]
    refine ⟨?_, ?_, ?_⟩ <;> simp [skelOps, opObs, writeRun]
  · intro sts rdata tr h
    rw [transaction_obs addr _ sts rdata tr (by simp) (by simp) h]
    refine ⟨?_, ?_, ?_⟩ <;> simp [skelOps, opObs, readRun]

/-- Witness for claim C6 at the concrete one-shot write of 0xAB to 0x50. -/
theorem claim_C6_witness :
    obsOf (transaction 80 [Operation.write [171]]
        (List.replicate 2 okStatus) []).1 =
      [Obs.msa 80 false, Obs.mdr 171, Obs.cmd true true true false] :=
  (((claim_C6 80 171).1 (List.replicate 2 okStatus) [] _
    (pair_eta_ok (by decide)))).1

/-- Claim C7: a non-empty operation sequence containing a zero-length
operation is rejected with `ErrorKind::Other` (the InvalidArgument-class
value of this implementation, cf. claim C10) before any register access:
the returned trace of register accesses is empty. -/
theorem claim_C7 (addr : Nat) (ops : List Operation) (sts : List BusStatus)
    (rdata : List Nat) (hne : ops ≠ []) (hz : ∃ op ∈ ops, op.len = 0) :
    transaction addr ops sts rdata = ([], TOutcome.err ErrorKind.other) := by
  have hie : ops.isEmpty = false := by
    cases ops with
    | nil => exact absurd rfl hne
    | cons a l => rfl
  have hany : (ops.any fun op => op.len == 0) = true := by
    rw [List.any_eq_true]
    obtain ⟨op, hmem, h0⟩ := hz
    exact ⟨op, hmem, by simpa using h0⟩
  simp [transaction, hie, hany]

/-- Witness for claim C7 at a concrete sequence with a zero-length write. -/
theorem claim_C7_witness :
    transaction 80 [Operation.write [1], Operation.write []] [] [] =
      ([], TOutcome.err ErrorKind.other) :=
  claim_C7 80 [Operation.write [1], Operation.write []] [] []
    (by decide) ⟨Operation.write [], by decide, by decide⟩

/-- Claim C8: a transaction with an empty operation sequence returns success
and performs no register access at all (empty access trace). -/
theorem claim_C8 (addr : Nat) (sts : List BusStatus) (rdata : List Nat) :
    transaction addr [] sts rdata = ([], TOutcome.ok) := rfl

/-- Claim C9 (amended): the configuration programs the timing-divisor
register with `((sysclk / (2 * 10 * freq)) - 1) as u8` in `u32`
arithmetic: truncating (floor) division and wrapping subtraction, truncated
to eight bits (a quotient of 0 wraps to 255 in release builds and panics in
debug builds).  For in-range configurations — `sysclk` and `20 * freq`
below `2 ^ 32` and `20 * freq ≤ sysclk` — whose quotient has fractional
part below one half, this equals the claimed
`round(sysclk / (2 * 10 * freq)) - 1` taken mod 256; the counterexample
shows the claimed rounded formula differs from the code when the
fractional part is one half or more. -/
theorem claim_C9 (sysclk freq : Nat)
    (hmul : 2 * 10 * freq < 2 ^ 32) (hclk : sysclk < 2 ^ 32)
    (hq : 2 * 10 * freq ≤ sysclk)
    (h : 2 * (sysclk % (2 * 10 * freq)) < 2 * 10 * freq) :
    tpr sysclk freq = (roundDiv sysclk (2 * 10 * freq) - 1) % 256 := by
  have hb : 0 < 2 * 10 * freq := by
    rcases Nat.eq_zero_or_pos (2 * 10 * freq) with h0 | h0
    · rw [h0] at h
      omega
    · exact h0
  have hdm := Nat.div_add_mod sysclk (2 * 10 * freq)
  have hround : roundDiv sysclk (2 * 10 * freq) = sysclk / (2 * 10 * freq) := by
    unfold roundDiv
    have hx : 2 * (2 * 10 * freq) * (sysclk / (2 * 10 * freq)) =
        2 * (2 * 10 * freq * (sysclk / (2 * 10 * freq))) := by ring
    have h2 : 2 * sysclk + 2 * 10 * freq =
        2 * (2 * 10 * freq) * (sysclk / (2 * 10 * freq)) +
          (2 * (sysclk % (2 * 10 * freq)) + 2 * 10 * freq) := by omega
    have h3 : (2 * (sysclk % (2 * 10 * freq)) + 2 * 10 * freq) /
        (2 * (2 * 10 * freq)) = 0 := Nat.div_eq_of_lt (by omega)
    rw [h2, Nat.mul_add_div (by omega), h3]
    omega
  have hq1 : 0 < sysclk / (2 * 10 * freq) := Nat.div_pos hq hb
  have hqlt : sysclk / (2 * 10 * freq) < 2 ^ 32 :=
    lt_of_le_of_lt (Nat.div_le_self _ _) hclk
  have hd : (2 * 10 * freq) % 2 ^ 32 = 2 * 10 * freq := Nat.mod_eq_of_lt hmul
  rw [hround]
  unfold tpr
  rw [hd]
  have h1 : sysclk / (2 * 10 * freq) + 2 ^ 32 - 1 =
      sysclk / (2 * 10 * freq) - 1 + 2 ^ 32 := by omega
  have h2 : (sysclk / (2 * 10 * freq) - 1) % 2 ^ 32 =
      sysclk / (2 * 10 * freq) - 1 := Nat.mod_eq_of_lt (by omega)
  rw [h1, Nat.add_mod_right, h2]

/-- Witness for claim C9 at 16 MHz system clock and 100 kHz bus frequency. -/
theorem claim_C9_witness :
    2 * 10 * 100000 < 2 ^ 32 ∧ 16000000 < 2 ^ 32 ∧
    2 * 10 * 100000 ≤ 16000000 ∧
    2 * (16000000 % (2 * 10 * 100000)) < 2 * 10 * 100000 ∧
    tpr 16000000 100000 = (roundDiv 16000000 (2 * 10 * 100000) - 1) % 256 :=
  ⟨by decide, by decide, by decide, by decide,
    claim_C9 16000000 100000 (by decide) (by decide) (by decide) (by decide)⟩

/-- Counterexample to claim C9 as stated: at sysclk = 30000 and
freq = 1000 the quotient is 1.5; the code programs floor(1.5) - 1 = 0
while the claimed rounded formula gives round(1.5) - 1 = 1. -/
theorem claim_C9_cex :
    tpr 30000 1000 ≠ (roundDiv 30000 (2 * 10 * 1000) - 1) % 256 := by
  decide

/-- Claim C10: the clock-timeout abort of a busy-wait and the zero-length
operation rejection return the same error value `ErrorKind::Other`: a
transaction aborted by a watchdog timeout and one rejected for a
zero-length operation produce equal, indistinguishable results. -/
theorem claim_C10 :
    (transaction 80 [Operation.write [171]] [clktoStatus] []).2 =
      TOutcome.err ErrorKind.other ∧
    transaction 80 [Operation.write [1], Operation.write []] [] [] =
      ([], TOutcome.err ErrorKind.other) ∧
    (transaction 80 [Operation.write [171]] [clktoStatus] []).2 =
      (transaction 80 [Operation.write [1], Operation.write []] [] []).2 ∧
    (transaction 80 [Operation.write [171]] [clktoStatus] []).1 ≠ [] := by
  decide

theorem sanity_single_write :
    transaction 80 [Operation.write [171]] (List.replicate 2 okStatus) [] =
      ([Event.writeMSA 80 false, Event.writeMDR 171,
        Event.writeMCLKOCNT mclkocntVal, Event.readMCS,
        Event.writeMCS true true true false,
        Event.writeMCLKOCNT mclkocntVal, Event.readMCS], TOutcome.ok) := by
  decide
